import Mathlib

/-!
Shallow embedding of the dependency-resolution tool in
eclipse_plugin_builders/__main__.py.

A filesystem snapshot below the target-platform root is modelled as a list
of regular files, each given by its list of path components relative to the
root (the last component is the file name).  String operations from Python
(substring test, startswith, replace, rstrip, splitlines) are modelled on
the character lists underlying Lean strings so that every definition is
executable and kernel-reducible.
-/

/-- Boolean prefix test on character lists; models Python str.startswith
applied to the underlying characters. -/
def isPrefB : List Char → List Char → Bool
  | [], _ => true
  | _ :: _, [] => false
  | a :: as, b :: bs => a == b && isPrefB as bs

/-- Boolean substring test: containsB pat s is true when pat occurs
contiguously inside s; models the Python operator in on strings. -/
def containsB (pat : List Char) : List Char → Bool
  | [] => pat.isEmpty
  | c :: rest => isPrefB pat (c :: rest) || containsB pat rest

/-- Python s.startswith(pat). -/
def strStartsWith (s pat : String) : Bool := isPrefB pat.data s.data

/-- Python membership test pat in s on strings. -/
def strContains (s pat : String) : Bool := containsB pat.data s.data

/-- Python s.endswith(pat). -/
def strEndsWith (s pat : String) : Bool := isPrefB pat.data.reverse s.data.reverse

/-- Python s.rstrip(): remove trailing whitespace characters. -/
def pyRstrip (s : String) : String := ⟨(s.data.reverse.dropWhile Char.isWhitespace).reverse⟩

/-- Fuel-driven engine for pyReplace: replaces occurrences of pat by rep
left to right, non-overlapping, as Python str.replace does for a non-empty
pattern.  The fuel is the length of the scanned list, so for a non-empty
pattern the fuel never runs out. -/
def replaceFuel (pat rep : List Char) : Nat → List Char → List Char
  | _, [] => []
  | 0, s => s
  | fuel + 1, c :: rest =>
    if isPrefB pat (c :: rest) then rep ++ replaceFuel pat rep fuel ((c :: rest).drop pat.length)
    else c :: replaceFuel pat rep fuel rest

/-- Python s.replace(pat, rep) for the non-empty patterns used by the tool. -/
def pyReplace (s pat rep : String) : String := ⟨replaceFuel pat.data rep.data s.data.length s.data⟩

/-- Python text.splitlines() restricted to newline separators: split on
every newline character, then drop a final empty fragment. -/
def splitNl : List Char → List (List Char)
  | [] => [[]]
  | c :: rest =>
    if c = '\n' then [] :: splitNl rest
    else
      match splitNl rest with
      | [] => [[c]]
      | h :: t => (c :: h) :: t

/-- Python text.splitlines() on the modelled strings. -/
def pySplitlines (s : String) : List String :=
  let ps := (splitNl s.data).map (fun l => String.mk l)
  if ps.getLast? == some "" then ps.dropLast else ps

/-- Lexicographic strict comparison of character lists by code point; this
is the comparison Python uses when sorting strings. -/
def listLtB : List Char → List Char → Bool
  | [], [] => false
  | [], _ :: _ => true
  | _ :: _, [] => false
  | a :: as, b :: bs => if a < b then true else if b < a then false else listLtB as bs

/-- Non-strict lexicographic string comparison, modelling the order used by
Python list.sort on strings. -/
def strLeB (a b : String) : Bool := !(listLtB b.data a.data)

/-- The PATH_BLACKLIST tuple of the source: fixed, case-sensitive denylist
substrings. -/
def PATH_BLACKLIST : List String :=
  [".pde.", "/jre/", "/org.eclipse.equinox.p2.repository/", "ant", "artifacts.jar",
   "content.jar", "ease", "egit", "jdt.debug", "jgit", "pydev"]

/-- The skip loop of _collect_target_platform_plugins: walk the denylist,
set skip when the pattern occurs in the path string, break on the first
match. -/
def skipLoop : List String → String → Bool
  | [], _ => false
  | p :: ps, s => if strContains s p then true else skipLoop ps s

/-- One classpathentry element as built by lxml E.classpathentry: kind and
path attributes, optional sourcepath and including attributes. -/
structure CPEntry where
  kind : String
  path : String
  sourcepath : Option String
  including : Option String
deriving DecidableEq

/-- String form of a path below the target-platform root, as produced by
str() on a pathlib path: the root followed by the slash-joined components. -/
def joinComps : List String → String
  | [] => ""
  | [x] => x
  | x :: y :: rest => x ++ "/" ++ joinComps (y :: rest)

/-- Full path string of a file given by its components relative to root. -/
def pathStr (root : String) (r : List String) : String := root ++ "/" ++ joinComps r

/-- The base name of a file (pathlib .name): the last path component. -/
def relName (r : List String) : String := r.getLastD ""

/-- The derived binary sibling of a source archive: same parent directory,
file name with ".source_" replaced by "_" (base.replace in the source). -/
def derivedRel (r : List String) : List String :=
  r.dropLast ++ [pyReplace (relName r) ".source_" "_"]

/-- File-name match for the glob pattern *.source_*.jar used to collect
source archives. -/
def isSourceJarName (n : String) : Bool :=
  strEndsWith n ".jar" && containsB ".source_".data (n.data.take (n.data.length - 4))

/-- File-name match for the glob pattern *.jar. -/
def isJarName (n : String) : Bool := strEndsWith n ".jar"

/-- The recursive source-archive scan target_path.glob of *.source_*.jar:
every file anywhere under the root whose name matches. -/
def sources_of (fs : List (List String)) : List (List String) :=
  fs.filter (fun r => isSourceJarName (relName r))

/-- The recursive scan d/**/*.jar below one first-level subtree d: the file
lies strictly below d and its name matches *.jar. -/
def subtreeJars (d : String) (fs : List (List String)) : List (List String) :=
  fs.filter (fun r => r.head? == some d && decide (2 ≤ r.length) && isJarName (relName r))

/-- dropins_jars of the source. -/
def dropins_jars (fs : List (List String)) : List (List String) := subtreeJars "dropins" fs

/-- features_jars of the source. -/
def features_jars (fs : List (List String)) : List (List String) := subtreeJars "features" fs

/-- jre_jars of the source. -/
def jre_jars (fs : List (List String)) : List (List String) := subtreeJars "jre" fs

/-- plugins_jars of the source. -/
def plugins_jars (fs : List (List String)) : List (List String) := subtreeJars "plugins" fs

/-- libs before self-exclusion: set(dropins + features + jre + plugins
jars) minus the sources set. -/
def libs0 (fs : List (List String)) : List (List String) :=
  ((dropins_jars fs ++ features_jars fs ++ jre_jars fs ++ plugins_jars fs).dedup).filter
    (fun r => !decide (r ∈ sources_of fs))

/-- The working binary set: libs0 with the artifact named like the
computed output jar filtered away. -/
def libs1 (fs : List (List String)) (jarName : String) : List (List String) :=
  (libs0 fs).filter (fun r => !(relName r == jarName))

/-- compute_jar_name: group, artifact and version read from the build
descriptor, each defaulting to "unknown" when absent. -/
def compute_jar_name (groupId artifactId version : Option String) : String :=
  (groupId.getD "unknown") ++ "." ++ (artifactId.getD "unknown") ++ "_" ++
    (version.getD "unknown") ++ ".jar"

/-- One iteration of the source loop of _collect_target_platform_plugins:
skip denylisted sources; otherwise derive the binary sibling, remove it
from the working binary list (ValueError from a missing element is
swallowed), and append a paired lib entry when both files exist on disk. -/
def reconcileStep (root : String) (fs : List (List String))
    (st : List (List String) × List CPEntry) (src : List String) :
    List (List String) × List CPEntry :=
  if skipLoop PATH_BLACKLIST (pathStr root src) then st
  else
    let lib := derivedRel src
    let libs := st.1.erase lib
    if lib ∈ fs ∧ src ∈ fs then
      (libs, st.2 ++ [⟨"lib", pathStr root lib, some (pathStr root src), none⟩])
    else (libs, st.2)

/-- One iteration of the residual-binary loop: skip denylisted binaries,
append a source-less lib entry when the file exists on disk. -/
def residualStep (root : String) (fs : List (List String))
    (es : List CPEntry) (lib : List String) : List CPEntry :=
  if skipLoop PATH_BLACKLIST (pathStr root lib) then es
  else if lib ∈ fs then es ++ [⟨"lib", pathStr root lib, none, none⟩]
  else es

/-- _collect_target_platform_plugins over a snapshot fs of the regular
files below the target-platform root: scan sources and the four binary
subtrees, run the reconciliation loops, and sort the entries by path. -/
def collect_target_platform_plugins (root : String) (fs : List (List String))
    (jarName : String) : List CPEntry :=
  let srcs := sources_of fs
  let libs := libs1 fs jarName
  let p1 := srcs.foldl (reconcileStep root fs) (libs, [])
  let es := p1.1.foldl (residualStep root fs) p1.2
  es.insertionSort (fun a b => strLeB a.path b.path = true)

/-- The entry contributed by one source archive in the first reconciliation
loop: none when the source is denylisted or one of the pair is missing on
disk, otherwise the paired lib entry. -/
def phase1emit (root : String) (fs : List (List String)) (r : List String) : Option CPEntry :=
  if skipLoop PATH_BLACKLIST (pathStr root r) then none
  else if derivedRel r ∈ fs ∧ r ∈ fs then
    some ⟨"lib", pathStr root (derivedRel r), some (pathStr root r), none⟩
  else none

/-- The working-binary-set update of one first-loop iteration: unchanged
for a denylisted source, otherwise the derived sibling is erased. -/
def eraseStep (root : String) (libs : List (List String)) (r : List String) :
    List (List String) :=
  if skipLoop PATH_BLACKLIST (pathStr root r) then libs else libs.erase (derivedRel r)

/-- The entry contributed by one residual binary in the second loop: none
when denylisted or missing on disk, otherwise a source-less lib entry. -/
def phase2emit (root : String) (fs : List (List String)) (lib : List String) : Option CPEntry :=
  if skipLoop PATH_BLACKLIST (pathStr root lib) then none
  else if lib ∈ fs then some ⟨"lib", pathStr root lib, none, none⟩
  else none

/-- The three fixed classpath entries prepended by build_classpath. -/
def fixed_classpaths : List CPEntry :=
  [⟨"src", "src", none, some "**/*.java"⟩,
   ⟨"output", "target/classes", none, none⟩,
   ⟨"con",
    "org.eclipse.jdt.launching.JRE_CONTAINER/org.eclipse.jdt.internal.debug.ui.launcher.StandardVMType/JavaSE-17",
    none, none⟩]

/-- The entry assembly of build_classpath: the fixed entries, then one lib
entry per sorted external dependency path, then the reconciled target
platform entries. -/
def build_classpath_entries (classpath_3rdparty : List String)
    (target_classpaths : List CPEntry) : List CPEntry :=
  let sorted3p := classpath_3rdparty.insertionSort (fun a b => strLeB a b = true)
  let classpaths := sorted3p.foldl
    (fun cs p => cs ++ [⟨"lib", p, none, none⟩]) fixed_classpaths
  classpaths ++ target_classpaths

/-- Ambient process state touched by build_classpath: the working
directory of the invoking process and the persisted classpath descriptor,
the latter modelled by its entry list. -/
structure ProcState where
  cwd : String
  classpathFile : Option (List CPEntry)
deriving DecidableEq

/-- Observed behaviour of the external dependency-listing tool: exit
status, captured standard output and standard error, and the content the
tool wrote to the nominated output file. -/
structure MvnResult where
  returncode : Int
  stdout : String
  stderr : String
  outputFileContent : String
deriving DecidableEq

/-- The unrecoverable errors raised by build_classpath. -/
inductive BuildError where
  | runtimeError (msg : String)
deriving DecidableEq

/-- Result of one build_classpath invocation: the ambient process state at
exit, the explicit working-directory argument handed to the subprocess
invocation (none when the tool was never run), and the raised error if
any. -/
structure BuildOutcome where
  state : ProcState
  subprocessCwd : Option String
  result : Option BuildError
deriving DecidableEq

/-- build_classpath after the target-directory check: locate the project
directory, change the process working directory to it (os.chdir in the
source), run the tool with the project directory passed as the explicit
cwd parameter, abort carrying the captured stdout on a non-zero exit, and
otherwise assemble the entries and overwrite the descriptor as a whole. -/
def build_classpath_model (st : ProcState) (projectDir : Option String)
    (mvn : MvnResult) (target_classpaths : List CPEntry) : BuildOutcome :=
  match projectDir with
  | none =>
    ⟨st, none, some (.runtimeError "Could not find a valid Eclipse JDTLS project directory.")⟩
  | some d =>
    let st1 : ProcState := { st with cwd := d }
    if mvn.returncode ≠ 0 then
      ⟨st1, some d, some (.runtimeError mvn.stdout)⟩
    else
      let classpath_3rdparty := pySplitlines (pyReplace mvn.outputFileContent ":" "\n")
      let entries := build_classpath_entries classpath_3rdparty target_classpaths
      ⟨{ st1 with classpathFile := some entries }, some d, none⟩

/-- State of the line scan of _update_bundle_classpath: accumulated output
text, whether the field was found, whether the scan is inside the field
block. -/
structure PatchState where
  out : String
  found : Bool
  inside : Bool
deriving DecidableEq

/-- One iteration of the line loop of _update_bundle_classpath: a line
starting with the field prefix is replaced by the new block and opens a
continuation region; continuation lines inside the region are dropped; any
other line is emitted right-trimmed. -/
def patchStep (bc : String) (st : PatchState) (line : String) : PatchState :=
  if strStartsWith line "Bundle-ClassPath:" then ⟨st.out ++ bc ++ "\n", true, true⟩
  else if st.inside && strStartsWith line " " then st
  else ⟨st.out ++ pyRstrip line ++ "\n", st.found, false⟩

/-- _update_bundle_classpath as a pure text transformation: scan the
manifest lines with patchStep and append the new block at the end when the
field was never found. -/
def update_bundle_classpath (bc : String) (manifest : String) : String :=
  let lines := pySplitlines manifest
  let st := lines.foldl (patchStep bc) ⟨"", false, false⟩
  if !(bc == "") && !st.found then
    (if strEndsWith st.out "\n" then st.out else st.out ++ "\n") ++ bc ++ "\n"
  else st.out

/-- _get_bundle_classpath: the replacement field line.  The first argument
is the third_party_lib_paths parameter of the function; the second models
the file names of the lib entries the function re-reads from the persisted
classpath descriptor through _third_party_lib_paths. -/
def get_bundle_classpath (third_party_lib_paths : List String)
    (descriptorLibNames : List String) : String :=
  let lib_paths := descriptorLibNames.insertionSort (fun a b => strLeB a b = true)
  let value :=
    if !third_party_lib_paths.isEmpty then
      ".,\n" ++ String.intercalate ",\n" (lib_paths.map (fun p => " lib/" ++ p))
    else "."
  "Bundle-ClassPath: " ++ value

/-!  Helper lemmas about the string primitives of the model. -/

theorem isPrefB_iff (p s : List Char) : isPrefB p s = true ↔ ∃ t, p ++ t = s := by
  induction p generalizing s with
  | nil => simp [isPrefB]
  | cons a as ih =>
    cases s with
    | nil => simp [isPrefB]
    | cons b bs =>
      simp [isPrefB, ih, List.cons_append, List.cons.injEq, exists_and_left]

theorem containsB_iff (pat s : List Char) :
    containsB pat s = true ↔ ∃ u v, u ++ pat ++ v = s := by
  induction s with
  | nil =>
    simp [containsB, List.isEmpty_iff, List.append_eq_nil]
  | cons c rest ih =>
    simp only [containsB, Bool.or_eq_true, isPrefB_iff, ih]
    constructor
    · rintro (⟨t, ht⟩ | ⟨u, v, huv⟩)
      · exact ⟨[], t, by simpa using ht⟩
      · exact ⟨c :: u, v, by simp [← huv]⟩
    · rintro ⟨u, v, huv⟩
      cases u with
      | nil => exact Or.inl ⟨v, by simpa using huv⟩
      | cons x us =>
        have hx : x = c := by simpa using congrArg (fun l => l.head?) huv
        refine Or.inr ⟨us, v, ?_⟩
        have := congrArg (fun l => l.tail) huv
        simpa using this

theorem containsB_append_right (pat s t : List Char) (h : containsB pat s = true) :
    containsB pat (s ++ t) = true := by
  rcases (containsB_iff pat s).1 h with ⟨u, v, huv⟩
  exact (containsB_iff pat (s ++ t)).2 ⟨u, v ++ t, by rw [← huv]; simp⟩

theorem strContains_append (s t pat : String) (h : strContains s pat = true) :
    strContains (s ++ t) pat = true := by
  have hd : (s ++ t).data = s.data ++ t.data := rfl
  unfold strContains at h ⊢
  rw [hd]
  exact containsB_append_right _ _ _ h

theorem skipLoop_eq_true_iff (l : List String) (s : String) :
    skipLoop l s = true ↔ ∃ p ∈ l, strContains s p = true := by
  induction l with
  | nil => simp [skipLoop]
  | cons p ps ih =>
    cases hc : strContains s p <;> simp [skipLoop, hc, ih]

theorem skipLoop_append (l : List String) (s t : String) (h : skipLoop l s = true) :
    skipLoop l (s ++ t) = true := by
  rcases (skipLoop_eq_true_iff l s).1 h with ⟨p, hp, hc⟩
  exact (skipLoop_eq_true_iff l (s ++ t)).2 ⟨p, hp, strContains_append s t p hc⟩

theorem skipLoop_pathStr (l : List String) (root : String)
    (h : skipLoop l root = true) (r : List String) :
    skipLoop l (pathStr root r) = true := by
  have h1 := skipLoop_append l root "/" h
  have h2 := skipLoop_append l (root ++ "/") (joinComps r) h1
  exact h2

theorem listLtB_iff (a b : List Char) : listLtB a b = true ↔ a < b := by
  induction a generalizing b with
  | nil =>
    cases b with
    | nil =>
      constructor
      · intro h; simp [listLtB] at h
      · intro h; exact nomatch (show List.Lex (· < ·) ([] : List Char) [] from h)
    | cons y ys =>
      constructor
      · intro _; exact show List.Lex (· < ·) ([] : List Char) (y :: ys) from List.Lex.nil
      · intro _; simp [listLtB]
  | cons x xs ih =>
    cases b with
    | nil =>
      constructor
      · intro h; simp [listLtB] at h
      · intro h; exact nomatch (show List.Lex (· < ·) (x :: xs) [] from h)
    | cons y ys =>
      simp only [listLtB]
      by_cases h1 : x < y
      · rw [if_pos h1]
        constructor
        · intro _; exact show List.Lex (· < ·) (x :: xs) (y :: ys) from List.Lex.rel h1
        · intro _; rfl
      · rw [if_neg h1]
        by_cases h2 : y < x
        · rw [if_pos h2]
          constructor
          · intro h; simp at h
          · intro h
            have h' : List.Lex (· < ·) (x :: xs) (y :: ys) := h
            cases h' with
            | cons h3 => exact absurd h2 (lt_irrefl x)
            | rel h3 => exact absurd h3 h1
        · rw [if_neg h2]
          have hxy : x = y := le_antisymm (le_of_not_lt h2) (le_of_not_lt h1)
          subst hxy
          rw [ih ys]
          constructor
          · intro h3
            exact show List.Lex (· < ·) (x :: xs) (x :: ys) from
              List.Lex.cons (show List.Lex (· < ·) xs ys from h3)
          · intro h
            have h' : List.Lex (· < ·) (x :: xs) (x :: ys) := h
            cases h' with
            | cons h3 => exact show xs < ys from h3
            | rel h3 => exact absurd h3 (lt_irrefl x)

theorem strLeB_iff (a b : String) : strLeB a b = true ↔ a ≤ b := by
  unfold strLeB
  rw [Bool.not_eq_true']
  constructor
  · intro h hba
    have hl : b.toList < a.toList := String.lt_iff_toList_lt.1 hba
    rw [← listLtB_iff] at hl
    simp only [String.toList] at hl
    simp [h] at hl
  · intro h
    cases hlt : listLtB b.data a.data with
    | false => rfl
    | true =>
      refine absurd (String.lt_iff_toList_lt.2 ?_) h
      have h2 := (listLtB_iff b.data a.data).1 hlt
      simpa only [String.toList] using h2

/-!  Decomposition of the reconciliation loops. -/

theorem reconcileStep_eq (root : String) (fs : List (List String))
    (libs : List (List String)) (es : List CPEntry) (r : List String) :
    reconcileStep root fs (libs, es) r =
      (eraseStep root libs r, es ++ (phase1emit root fs r).toList) := by
  unfold reconcileStep eraseStep phase1emit
  by_cases hs : skipLoop PATH_BLACKLIST (pathStr root r) = true
  · simp [hs]
  · simp only [Bool.not_eq_true] at hs
    by_cases hmem : derivedRel r ∈ fs ∧ r ∈ fs
    · simp [hs, hmem]
    · simp [hs, hmem]

theorem reconcile_foldl (root : String) (fs : List (List String))
    (l : List (List String)) :
    ∀ (libs : List (List String)) (es : List CPEntry),
    l.foldl (reconcileStep root fs) (libs, es) =
      (l.foldl (eraseStep root) libs, es ++ l.filterMap (phase1emit root fs)) := by
  induction l with
  | nil => intro libs es; simp
  | cons r l ih =>
    intro libs es
    rw [List.foldl_cons, List.foldl_cons, reconcileStep_eq, ih]
    cases h : phase1emit root fs r <;> simp [List.filterMap_cons, h]

theorem residualStep_eq (root : String) (fs : List (List String))
    (es : List CPEntry) (lib : List String) :
    residualStep root fs es lib = es ++ (phase2emit root fs lib).toList := by
  unfold residualStep phase2emit
  by_cases hs : skipLoop PATH_BLACKLIST (pathStr root lib) = true
  · simp [hs]
  · simp only [Bool.not_eq_true] at hs
    by_cases hmem : lib ∈ fs
    · simp [hs, hmem]
    · simp [hs, hmem]

theorem residual_foldl (root : String) (fs : List (List String))
    (l : List (List String)) :
    ∀ (es : List CPEntry),
    l.foldl (residualStep root fs) es = es ++ l.filterMap (phase2emit root fs) := by
  induction l with
  | nil => intro es; simp
  | cons lib l ih =>
    intro es
    rw [List.foldl_cons, residualStep_eq, ih]
    cases h : phase2emit root fs lib <;> simp [List.filterMap_cons, h]

theorem collect_eq (root : String) (fs : List (List String)) (jarName : String) :
    collect_target_platform_plugins root fs jarName =
      ((sources_of fs).filterMap (phase1emit root fs) ++
        ((sources_of fs).foldl (eraseStep root) (libs1 fs jarName)).filterMap
          (phase2emit root fs)).insertionSort (fun a b => strLeB a.path b.path = true) := by
  simp only [collect_target_platform_plugins]
  rw [reconcile_foldl, residual_foldl]
  simp

theorem eraseStep_nodup (root : String) (libs : List (List String)) (r : List String)
    (h : libs.Nodup) : (eraseStep root libs r).Nodup := by
  unfold eraseStep
  split
  · exact h
  · exact h.erase _

theorem eraseFold_nodup (root : String) (l : List (List String)) :
    ∀ libs : List (List String), libs.Nodup → (l.foldl (eraseStep root) libs).Nodup := by
  induction l with
  | nil => intro libs h; exact h
  | cons r l ih =>
    intro libs h
    rw [List.foldl_cons]
    exact ih _ (eraseStep_nodup root libs r h)

theorem mem_eraseFold (root : String) (l : List (List String)) :
    ∀ (libs : List (List String)) (b : List String), libs.Nodup →
    (b ∈ l.foldl (eraseStep root) libs ↔
      b ∈ libs ∧ ∀ r ∈ l, skipLoop PATH_BLACKLIST (pathStr root r) = false → derivedRel r ≠ b) := by
  induction l with
  | nil => intro libs b _; simp
  | cons r l ih =>
    intro libs b hnd
    rw [List.foldl_cons, ih (eraseStep root libs r) b (eraseStep_nodup root libs r hnd)]
    unfold eraseStep
    by_cases hs : skipLoop PATH_BLACKLIST (pathStr root r) = true
    · rw [if_pos hs]
      constructor
      · rintro ⟨hb, hrest⟩
        refine ⟨hb, ?_⟩
        intro q hq hqs
        rcases List.mem_cons.1 hq with rfl | hq2
        · simp [hs] at hqs
        · exact hrest q hq2 hqs
      · rintro ⟨hb, hall⟩
        exact ⟨hb, fun q hq hqs => hall q (List.mem_cons_of_mem _ hq) hqs⟩
    · simp only [Bool.not_eq_true] at hs
      rw [if_neg (by simp [hs]), hnd.mem_erase_iff]
      constructor
      · rintro ⟨⟨hne, hb⟩, hrest⟩
        refine ⟨hb, ?_⟩
        intro q hq hqs
        rcases List.mem_cons.1 hq with rfl | hq2
        · exact fun hd => hne hd.symm
        · exact hrest q hq2 hqs
      · rintro ⟨hb, hall⟩
        refine ⟨⟨?_, hb⟩, fun q hq hqs => hall q (List.mem_cons_of_mem _ hq) hqs⟩
        exact fun hd => hall r (List.mem_cons_self r l) hs hd.symm

theorem nodup_path_filterMap (f : List String → Option CPEntry) (l : List (List String))
    (hp : l.Pairwise (fun a b => ∀ x y, f a = some x → f b = some y → x.path ≠ y.path)) :
    ((l.filterMap f).map (fun e => e.path)).Nodup := by
  induction l with
  | nil => simp
  | cons a l ih =>
    rcases List.pairwise_cons.1 hp with ⟨hhead, htail⟩
    cases hfa : f a with
    | none => simpa [List.filterMap_cons, hfa] using ih htail
    | some e =>
      simp only [List.filterMap_cons, hfa, List.map_cons, List.nodup_cons]
      refine ⟨?_, ih htail⟩
      intro hmem
      rcases List.mem_map.1 hmem with ⟨e2, he2, hpath⟩
      rcases List.mem_filterMap.1 he2 with ⟨b, hb, hfb⟩
      exact hhead b hb e e2 hfa hfb hpath.symm

theorem count_filterMap_one (f : List String → Option CPEntry) (e : CPEntry)
    (l : List (List String)) :
    ∀ s : List String, l.Nodup → s ∈ l → f s = some e →
    (∀ b ∈ l, f b = some e → b = s) →
    (l.filterMap f).count e = 1 := by
  induction l with
  | nil => intro s _ hs; simp at hs
  | cons a l ih =>
    intro s hnd hs hfs huniq
    rcases List.nodup_cons.1 hnd with ⟨hanl, hndl⟩
    rcases List.mem_cons.1 hs with rfl | hsl
    · simp only [List.filterMap_cons, hfs]
      rw [List.count_cons_self]
      have hnot : e ∉ l.filterMap f := by
        intro hmem
        rcases List.mem_filterMap.1 hmem with ⟨b, hb, hfb⟩
        have hbs := huniq b (List.mem_cons_of_mem _ hb) hfb
        rw [hbs] at hb
        exact hanl hb
      rw [List.count_eq_zero.2 hnot]
    · have has : a ≠ s := fun h => hanl (h ▸ hsl)
      cases hfa : f a with
      | none =>
        simp only [List.filterMap_cons, hfa]
        exact ih s hndl hsl hfs (fun b hb hfb => huniq b (List.mem_cons_of_mem _ hb) hfb)
      | some y =>
        have hye : e ≠ y := by
          intro h
          exact has (huniq a (List.mem_cons_self a l) (h ▸ hfa))
        simp only [List.filterMap_cons, hfa]
        rw [List.count_cons_of_ne hye]
        exact ih s hndl hsl hfs (fun b hb hfb => huniq b (List.mem_cons_of_mem _ hb) hfb)

theorem sources_subset (fs : List (List String)) : ∀ r ∈ sources_of fs, r ∈ fs :=
  fun _ hr => (List.mem_filter.1 hr).1

theorem libs1_subset (fs : List (List String)) (jn : String) : ∀ b ∈ libs1 fs jn, b ∈ fs := by
  intro b hb
  unfold libs1 libs0 at hb
  have h1 := (List.mem_filter.1 hb).1
  have h2 := (List.mem_filter.1 h1).1
  have h3 := List.mem_dedup.1 h2
  unfold dropins_jars features_jars jre_jars plugins_jars subtreeJars at h3
  simp only [List.mem_append] at h3
  rcases h3 with ((h4 | h4) | h4) | h4 <;> exact (List.mem_filter.1 h4).1

theorem libs1_nodup (fs : List (List String)) (jn : String) : (libs1 fs jn).Nodup := by
  unfold libs1 libs0
  exact List.Nodup.filter _ (List.Nodup.filter _ (List.nodup_dedup _))

theorem phase1emit_some (root : String) (fs : List (List String)) (r : List String)
    (x : CPEntry) (h : phase1emit root fs r = some x) :
    skipLoop PATH_BLACKLIST (pathStr root r) = false ∧ derivedRel r ∈ fs ∧ r ∈ fs ∧
      x = ⟨"lib", pathStr root (derivedRel r), some (pathStr root r), none⟩ := by
  unfold phase1emit at h
  by_cases hs : skipLoop PATH_BLACKLIST (pathStr root r) = true
  · simp [hs] at h
  · simp only [Bool.not_eq_true] at hs
    rw [if_neg (by simp [hs])] at h
    by_cases hmem : derivedRel r ∈ fs ∧ r ∈ fs
    · rw [if_pos hmem] at h
      exact ⟨hs, hmem.1, hmem.2, (Option.some_inj.1 h).symm⟩
    · simp [hmem] at h

theorem phase1emit_of (root : String) (fs : List (List String)) (r : List String)
    (hs : skipLoop PATH_BLACKLIST (pathStr root r) = false)
    (h1 : derivedRel r ∈ fs) (h2 : r ∈ fs) :
    phase1emit root fs r =
      some ⟨"lib", pathStr root (derivedRel r), some (pathStr root r), none⟩ := by
  unfold phase1emit
  rw [if_neg (by simp [hs]), if_pos ⟨h1, h2⟩]

theorem phase2emit_some (root : String) (fs : List (List String)) (lib : List String)
    (x : CPEntry) (h : phase2emit root fs lib = some x) :
    skipLoop PATH_BLACKLIST (pathStr root lib) = false ∧ lib ∈ fs ∧
      x = ⟨"lib", pathStr root lib, none, none⟩ := by
  unfold phase2emit at h
  by_cases hs : skipLoop PATH_BLACKLIST (pathStr root lib) = true
  · simp [hs] at h
  · simp only [Bool.not_eq_true] at hs
    rw [if_neg (by simp [hs])] at h
    by_cases hmem : lib ∈ fs
    · rw [if_pos hmem] at h
      exact ⟨hs, hmem, (Option.some_inj.1 h).symm⟩
    · simp [hmem] at h

theorem sorted_insertionSort_strLeB (l : List String) :
    List.Sorted (· ≤ ·) (l.insertionSort (fun a b => strLeB a b = true)) := by
  haveI ht : IsTotal String (fun a b => strLeB a b = true) := ⟨fun x y => by
    rcases le_total x y with h | h
    · exact Or.inl ((strLeB_iff x y).2 h)
    · exact Or.inr ((strLeB_iff y x).2 h)⟩
  haveI htr : IsTrans String (fun a b => strLeB a b = true) := ⟨fun x y z hxy hyz =>
    (strLeB_iff x z).2 (le_trans ((strLeB_iff x y).1 hxy) ((strLeB_iff y z).1 hyz))⟩
  exact List.Pairwise.imp (fun hab => (strLeB_iff _ _).1 hab) (List.sorted_insertionSort _ l)

theorem foldl_append_map {α β : Type} (f : α → β) (l : List α) :
    ∀ init : List β, l.foldl (fun cs p => cs ++ [f p]) init = init ++ l.map f := by
  induction l with
  | nil => intro init; simp
  | cons a l ih => intro init; rw [List.foldl_cons, ih]; simp

/-!  Claim theorems. -/

/-- Claim C5 (confirmed): the Pattern Filter excludes a path exactly when
one of the fixed, case-sensitive denylist substrings occurs contiguously
inside its string form, and appending any suffix to an excluded path keeps
it excluded. -/
theorem pattern_filter_characterization (p : String) :
    (skipLoop PATH_BLACKLIST p = true ↔
      ∃ pat ∈ PATH_BLACKLIST, ∃ u v, u ++ pat.data ++ v = p.data) ∧
    (∀ t, skipLoop PATH_BLACKLIST p = true → skipLoop PATH_BLACKLIST (p ++ t) = true) := by
  constructor
  · rw [skipLoop_eq_true_iff]
    constructor
    · rintro ⟨pat, hpat, hc⟩
      exact ⟨pat, hpat, (containsB_iff pat.data p.data).1 hc⟩
    · rintro ⟨pat, hpat, u, v, huv⟩
      exact ⟨pat, hpat, (containsB_iff pat.data p.data).2 ⟨u, v, huv⟩⟩
  · intro t h
    exact skipLoop_append _ p t h

/-- Witness for C5 at a concrete path: /x/ant is excluded because of the
denylist entry ant, and appending /y keeps it excluded. -/
theorem pattern_filter_witness :
    skipLoop PATH_BLACKLIST ("/x/ant" ++ "/y") = true :=
  (pattern_filter_characterization "/x/ant").2 "/y" (by decide)

/-- Claim C10 (confirmed): when the target-platform root string itself
contains a denylist substring, every scanned path is excluded and the
reconciler returns the empty entry list, whatever the artifacts are. -/
theorem blacklisted_root_empty_reconciliation (root : String) (fs : List (List String))
    (jarName : String) (hroot : skipLoop PATH_BLACKLIST root = true) :
    collect_target_platform_plugins root fs jarName = [] := by
  have hall : ∀ r : List String, skipLoop PATH_BLACKLIST (pathStr root r) = true :=
    skipLoop_pathStr PATH_BLACKLIST root hroot
  rw [collect_eq]
  have h1 : (sources_of fs).filterMap (phase1emit root fs) = [] := by
    rw [List.filterMap_eq_nil_iff]
    intro r _
    unfold phase1emit
    rw [if_pos (hall r)]
  have h2 : ((sources_of fs).foldl (eraseStep root) (libs1 fs jarName)).filterMap
      (phase2emit root fs) = [] := by
    rw [List.filterMap_eq_nil_iff]
    intro lib _
    unfold phase2emit
    rw [if_pos (hall lib)]
  rw [h1, h2]
  rfl

/-- Witness for C10: a root containing the denylist substring ant makes the
reconciler return no entries although a clean plugin jar is present. -/
theorem blacklisted_root_witness :
    collect_target_platform_plugins "/opt/ant-platform"
      [["plugins", "x.jar"], ["plugins", "x.source_1.jar"]] "self.jar" = [] :=
  blacklisted_root_empty_reconciliation "/opt/ant-platform"
    [["plugins", "x.jar"], ["plugins", "x.source_1.jar"]] "self.jar" (by decide)

/-- Claim C4 (confirmed): the working binary set holds exactly the archive
files scanned below the four first-level subtrees, minus the source set,
minus any artifact named like the computed output jar
group.artifact_version.jar; in particular the self-named artifact never
belongs to it. -/
theorem binaries_set_characterization (fs : List (List String)) (g a v : Option String)
    (b : List String) :
    (b ∈ libs1 fs (compute_jar_name g a v) ↔
      ((b ∈ dropins_jars fs ∨ b ∈ features_jars fs ∨ b ∈ jre_jars fs ∨ b ∈ plugins_jars fs) ∧
        b ∉ sources_of fs ∧ relName b ≠ compute_jar_name g a v)) ∧
    (relName b = compute_jar_name g a v → b ∉ libs1 fs (compute_jar_name g a v)) := by
  have hiff : b ∈ libs1 fs (compute_jar_name g a v) ↔
      ((b ∈ dropins_jars fs ∨ b ∈ features_jars fs ∨ b ∈ jre_jars fs ∨ b ∈ plugins_jars fs) ∧
        b ∉ sources_of fs ∧ relName b ≠ compute_jar_name g a v) := by
    unfold libs1 libs0
    simp only [List.mem_filter, List.mem_dedup, List.mem_append, Bool.not_eq_true',
      decide_eq_false_iff_not, beq_eq_false_iff_ne, ne_eq]
    tauto
  exact ⟨hiff, fun heq hmem => (hiff.1 hmem).2.2 heq⟩

/-- Witness for C4: an artifact physically present under plugins whose name
equals the computed output jar name is not in the binary set. -/
theorem binaries_set_witness :
    ["plugins", "g.a_1.jar"] ∉
      libs1 [["plugins", "g.a_1.jar"]] (compute_jar_name (some "g") (some "a") (some "1")) :=
  (binaries_set_characterization [["plugins", "g.a_1.jar"]] (some "g") (some "a") (some "1")
    ["plugins", "g.a_1.jar"]).2 (by decide)

/-- Claim C6 (confirmed): the assembled descriptor lists the three fixed
entries first (src with include pattern, output, runtime container), then
one sourcepath-free lib entry per external dependency path in
lexicographically ascending order, then the reconciler entries, with no
merge or dedup pass across the groups (the length is the sum of the group
sizes). -/
theorem assembler_entry_order (tp : List String) (tgt : List CPEntry) :
    ∃ stp : List String, stp.Perm tp ∧ List.Sorted (· ≤ ·) stp ∧
      build_classpath_entries tp tgt =
        fixed_classpaths ++ stp.map (fun p => (⟨"lib", p, none, none⟩ : CPEntry)) ++ tgt ∧
      (build_classpath_entries tp tgt).length = 3 + tp.length + tgt.length := by
  refine ⟨tp.insertionSort (fun a b => strLeB a b = true), List.perm_insertionSort _ tp,
    sorted_insertionSort_strLeB tp, ?_, ?_⟩
  · simp only [build_classpath_entries]
    rw [foldl_append_map]
  · simp only [build_classpath_entries]
    rw [foldl_append_map]
    have hlen := (List.perm_insertionSort (fun a b => strLeB a b = true) tp).length_eq
    simp [fixed_classpaths, hlen]
    omega

/-- Claim C1 (counterexample): a source archive that passes the filter and
whose derived binary sibling is absent from the binary set still
contributes a paired classpath entry when both files exist on disk; here
the pair lies outside the four scanned subtrees, so the binary set is
empty, yet one entry is emitted. -/
theorem reconciler_counterexample :
    skipLoop PATH_BLACKLIST (pathStr "/t" ["x", "a.source_1.jar"]) = false ∧
    ["x", "a.source_1.jar"] ∈ sources_of [["x", "a.source_1.jar"], ["x", "a_1.jar"]] ∧
    derivedRel ["x", "a.source_1.jar"] ∉
      libs1 [["x", "a.source_1.jar"], ["x", "a_1.jar"]] "self.jar" ∧
    collect_target_platform_plugins "/t" [["x", "a.source_1.jar"], ["x", "a_1.jar"]]
        "self.jar" =
      [⟨"lib", "/t/x/a_1.jar", some "/t/x/a.source_1.jar", none⟩] := by
  refine ⟨by decide, by decide, by decide, by decide⟩

/-- Claim C1 (corrected): when the derived binary sibling of a non-excluded
source archive is not in the working binary set, no binary is removed from
the set, but the source still contributes a paired lib entry whenever both
files exist on disk; it contributes nothing only when one of the two files
is missing. -/
theorem reconciler_no_member_no_removal (root : String) (fs libs : List (List String))
    (es : List CPEntry) (r : List String)
    (hskip : skipLoop PATH_BLACKLIST (pathStr root r) = false)
    (hmem : derivedRel r ∉ libs) :
    reconcileStep root fs (libs, es) r =
      (libs,
        if derivedRel r ∈ fs ∧ r ∈ fs then
          es ++ [⟨"lib", pathStr root (derivedRel r), some (pathStr root r), none⟩]
        else es) := by
  rw [reconcileStep_eq]
  unfold eraseStep phase1emit
  rw [if_neg (by simp [hskip]), if_neg (by simp [hskip]), List.erase_of_not_mem hmem]
  by_cases h : derivedRel r ∈ fs ∧ r ∈ fs
  · rw [if_pos h, if_pos h]
    rfl
  · rw [if_neg h, if_neg h]
    simp

/-- Witness for the corrected C1: with an empty working binary set the step
removes nothing and still emits the paired entry. -/
theorem reconciler_no_member_witness :
    reconcileStep "/t" [["x", "a.source_1.jar"], ["x", "a_1.jar"]] ([], [])
        ["x", "a.source_1.jar"] =
      ([], [⟨"lib", "/t/x/a_1.jar", some "/t/x/a.source_1.jar", none⟩]) := by
  have h := reconciler_no_member_no_removal "/t" [["x", "a.source_1.jar"], ["x", "a_1.jar"]]
    [] [] ["x", "a.source_1.jar"] (by decide) (by decide)
  rw [h]
  decide

/-- Claim C2 (counterexample): a manifest holding the classpath field twice
has both occurrences replaced by the new block; the second field line is
not passed through unchanged. -/
theorem patcher_counterexample :
    update_bundle_classpath "Bundle-ClassPath: ."
        "Bundle-ClassPath: old\n cont\nOther: x\nBundle-ClassPath: old2\nEnd: y" =
      "Bundle-ClassPath: .\nOther: x\nBundle-ClassPath: .\nEnd: y\n" ∧
    update_bundle_classpath "Bundle-ClassPath: ."
        "Bundle-ClassPath: old\n cont\nOther: x\nBundle-ClassPath: old2\nEnd: y" ≠
      "Bundle-ClassPath: .\nOther: x\nBundle-ClassPath: old2\nEnd: y\n" := by
  refine ⟨by decide, by decide⟩

/-- Claim C2 (corrected): every line that begins with the field prefix is
rewritten, not only the first one: the scan step replaces any such line by
the new field block regardless of whether the field was already found. -/
theorem patcher_replaces_every_field_line (bc : String) (st : PatchState) (line : String)
    (h : strStartsWith line "Bundle-ClassPath:" = true) :
    patchStep bc st line = ⟨st.out ++ bc ++ "\n", true, true⟩ := by
  unfold patchStep
  rw [if_pos h]

/-- Witness for the corrected C2: a field line is replaced even though the
scan state already recorded an earlier occurrence. -/
theorem patcher_replaces_witness :
    patchStep "B" ⟨"o", true, false⟩ "Bundle-ClassPath: x" = ⟨"o" ++ "B" ++ "\n", true, true⟩ :=
  patcher_replaces_every_field_line "B" ⟨"o", true, false⟩ "Bundle-ClassPath: x" (by decide)

/-- Claim C8 (counterexample): the replacement value is not built from the
libraryFileNames argument alone; the function re-reads the lib names from
the persisted descriptor and uses those, the argument deciding only
whether the value is the bare dot. -/
theorem bundle_value_counterexample :
    get_bundle_classpath ["a.jar"] ["b.jar"] = "Bundle-ClassPath: .,\n lib/b.jar" ∧
    get_bundle_classpath ["a.jar"] ["b.jar"] ≠ "Bundle-ClassPath: .,\n lib/a.jar" := by
  refine ⟨by decide, by decide⟩

/-- Claim C8 (corrected): the value is the bare dot exactly when the
argument list is empty, and otherwise consists of the dot-comma header
followed by one space-lib-slash line per descriptor-derived file name,
listed in lexicographically ascending order and joined by comma-newline. -/
theorem bundle_value_from_descriptor (arg names : List String) :
    ∃ ns : List String, ns.Perm names ∧ List.Sorted (· ≤ ·) ns ∧
      get_bundle_classpath arg names =
        "Bundle-ClassPath: " ++
          (if arg.isEmpty then "."
           else ".,\n" ++ String.intercalate ",\n" (ns.map (fun p => " lib/" ++ p))) := by
  refine ⟨names.insertionSort (fun a b => strLeB a b = true), List.perm_insertionSort _ names,
    sorted_insertionSort_strLeB names, ?_⟩
  unfold get_bundle_classpath
  cases arg with
  | nil => simp
  | cons x xs => simp

/-- Claim C3 (code_bug): the modelled build_classpath changes the ambient
working directory of the process to the located project directory (the
os.chdir of the source) and leaves it changed, while also passing the
project directory to the subprocess as the explicit cwd parameter. -/
theorem build_classpath_mutates_cwd :
    (build_classpath_model ⟨"/home/user", none⟩ (some "/proj") ⟨0, "", "", ""⟩ []).state.cwd =
      "/proj" ∧
    (build_classpath_model ⟨"/home/user", none⟩ (some "/proj") ⟨0, "", "", ""⟩ []).state.cwd ≠
      "/home/user" ∧
    (build_classpath_model ⟨"/home/user", none⟩ (some "/proj") ⟨0, "", "", ""⟩ []).subprocessCwd =
      some "/proj" := by
  refine ⟨by decide, by decide, by decide⟩

/-- Claim C9 (confirmed): a non-zero exit of the dependency-listing tool
aborts the run with an error carrying the captured standard output of the
tool and leaves the persisted classpath descriptor exactly as it was; more
generally every aborted run leaves the descriptor untouched, since the
whole-file overwrite happens only after all prior steps succeeded. -/
theorem build_classpath_error_handling (st : ProcState) (d : String) (mvn : MvnResult)
    (tgt : List CPEntry) (hrc : mvn.returncode ≠ 0) :
    ((build_classpath_model st (some d) mvn tgt).result =
        some (BuildError.runtimeError mvn.stdout) ∧
      (build_classpath_model st (some d) mvn tgt).state.classpathFile = st.classpathFile) ∧
    ∀ (pd : Option String) (mvn2 : MvnResult) (e : BuildError),
      (build_classpath_model st pd mvn2 tgt).result = some e →
      (build_classpath_model st pd mvn2 tgt).state.classpathFile = st.classpathFile := by
  constructor
  · simp only [build_classpath_model]
    rw [if_pos hrc]
    exact ⟨rfl, rfl⟩
  · intro pd mvn2 e hres
    cases pd with
    | none => rfl
    | some d2 =>
      simp only [build_classpath_model] at hres ⊢
      by_cases h2 : mvn2.returncode ≠ 0
      · rw [if_pos h2]
      · rw [if_neg h2] at hres
        simp at hres

/-- Witness for C9: a failing tool run with captured output OUT aborts with
that output as the error detail and the previously persisted descriptor
survives unchanged. -/
theorem build_classpath_error_witness :
    (build_classpath_model ⟨"/w", some [⟨"lib", "old", none, none⟩]⟩ (some "/proj")
        ⟨1, "OUT", "ERR", ""⟩ []).result = some (BuildError.runtimeError "OUT") ∧
    (build_classpath_model ⟨"/w", some [⟨"lib", "old", none, none⟩]⟩ (some "/proj")
        ⟨1, "OUT", "ERR", ""⟩ []).state.classpathFile = some [⟨"lib", "old", none, none⟩] :=
  (build_classpath_error_handling ⟨"/w", some [⟨"lib", "old", none, none⟩]⟩ "/proj"
    ⟨1, "OUT", "ERR", ""⟩ [] (by decide)).1

/-- Claim C7 (counterexample): two distinct source archives in the same
plugins directory derive the same binary sibling, so the reconciled output
holds two lib entries sharing one path, refuting the no-duplicate-path
conclusion. -/
theorem reconciler_duplicate_path_counterexample :
    (collect_target_platform_plugins "/t"
      [["plugins", "a.source__1.jar"], ["plugins", "a.source_.source_1.jar"],
       ["plugins", "a__1.jar"]] "self.jar").map (fun e => e.path) =
      ["/t/plugins/a__1.jar", "/t/plugins/a__1.jar"] ∧
    ¬ ((collect_target_platform_plugins "/t"
      [["plugins", "a.source__1.jar"], ["plugins", "a.source_.source_1.jar"],
       ["plugins", "a__1.jar"]] "self.jar").map (fun e => e.path)).Nodup := by
  refine ⟨by decide, by decide⟩

/-- Claim C7 (corrected): under the additional assumptions that distinct
files have distinct path strings and that no two distinct non-excluded
source archives derive the same binary sibling, the reconciler emits, for
every source/binary pair whose two files exist on disk and whose source
passes the filter, exactly one entry (a lib entry with sourcepath set to
the source), the paired binary never also appears as a source-less entry,
and no two entries of the reconciled output share the same path. -/
theorem reconciler_unique_paths (root : String) (fs : List (List String)) (jarName : String)
    (hnd : fs.Nodup)
    (hinj : ∀ r1 ∈ fs, ∀ r2 ∈ fs, pathStr root r1 = pathStr root r2 → r1 = r2)
    (hder : ∀ s1 ∈ sources_of fs, ∀ s2 ∈ sources_of fs,
      skipLoop PATH_BLACKLIST (pathStr root s1) = false →
      skipLoop PATH_BLACKLIST (pathStr root s2) = false →
      derivedRel s1 = derivedRel s2 → s1 = s2) :
    (∀ s ∈ sources_of fs,
      skipLoop PATH_BLACKLIST (pathStr root s) = false →
      derivedRel s ∈ fs →
      (collect_target_platform_plugins root fs jarName).count
          ⟨"lib", pathStr root (derivedRel s), some (pathStr root s), none⟩ = 1 ∧
      ∀ e ∈ collect_target_platform_plugins root fs jarName,
        e.path = pathStr root (derivedRel s) → e.sourcepath ≠ none) ∧
    ((collect_target_platform_plugins root fs jarName).map (fun e => e.path)).Nodup := by
  have hndL : (libs1 fs jarName).Nodup := libs1_nodup fs jarName
  have hndS : (sources_of fs).Nodup := List.Nodup.filter _ hnd
  have hLsub : ∀ b ∈ libs1 fs jarName, b ∈ fs := libs1_subset fs jarName
  have hSsub : ∀ s ∈ sources_of fs, s ∈ fs := sources_subset fs
  have hperm : (collect_target_platform_plugins root fs jarName).Perm
      ((sources_of fs).filterMap (phase1emit root fs) ++
        ((sources_of fs).foldl (eraseStep root) (libs1 fs jarName)).filterMap
          (phase2emit root fs)) := by
    rw [collect_eq]
    exact List.perm_insertionSort _ _
  have hndF : ((sources_of fs).foldl (eraseStep root) (libs1 fs jarName)).Nodup :=
    eraseFold_nodup root _ _ hndL
  have hFiff : ∀ b, b ∈ (sources_of fs).foldl (eraseStep root) (libs1 fs jarName) ↔
      b ∈ libs1 fs jarName ∧ ∀ r ∈ sources_of fs,
        skipLoop PATH_BLACKLIST (pathStr root r) = false → derivedRel r ≠ b :=
    fun b => mem_eraseFold root (sources_of fs) (libs1 fs jarName) b hndL
  have hFsub : ∀ b ∈ (sources_of fs).foldl (eraseStep root) (libs1 fs jarName), b ∈ fs :=
    fun b hb => hLsub b ((hFiff b).1 hb).1
  constructor
  · intro s hs hskip hbfs
    have hsfs : s ∈ fs := hSsub s hs
    have hemit : phase1emit root fs s =
        some ⟨"lib", pathStr root (derivedRel s), some (pathStr root s), none⟩ :=
      phase1emit_of root fs s hskip hbfs hsfs
    constructor
    · rw [List.Perm.count_eq hperm, List.count_append]
      have hc2 : (((sources_of fs).foldl (eraseStep root) (libs1 fs jarName)).filterMap
          (phase2emit root fs)).count
          (⟨"lib", pathStr root (derivedRel s), some (pathStr root s), none⟩ : CPEntry) = 0 := by
        rw [List.count_eq_zero]
        intro hmem
        rcases List.mem_filterMap.1 hmem with ⟨b, hb, hfb⟩
        rcases phase2emit_some root fs b _ hfb with ⟨_, _, hx⟩
        simp at hx
      have hc1 : ((sources_of fs).filterMap (phase1emit root fs)).count
          (⟨"lib", pathStr root (derivedRel s), some (pathStr root s), none⟩ : CPEntry) = 1 := by
        apply count_filterMap_one (phase1emit root fs)
          (⟨"lib", pathStr root (derivedRel s), some (pathStr root s), none⟩ : CPEntry)
          (sources_of fs) s hndS hs hemit
        intro b hb hfb
        rcases phase1emit_some root fs b _ hfb with ⟨hbskip, hbd, hbfs2, hx⟩
        have h1 := congrArg CPEntry.sourcepath hx
        simp only [Option.some.injEq] at h1
        exact hinj b hbfs2 s hsfs h1.symm
      rw [hc1, hc2]
    · intro e he hpath hnone
      rcases List.mem_append.1 ((List.Perm.mem_iff hperm).1 he) with he1 | he2
      · rcases List.mem_filterMap.1 he1 with ⟨b, hb, hfb⟩
        rcases phase1emit_some root fs b e hfb with ⟨_, _, _, hx⟩
        rw [hx] at hnone
        simp at hnone
      · rcases List.mem_filterMap.1 he2 with ⟨b, hb, hfb⟩
        rcases phase2emit_some root fs b e hfb with ⟨_, hbfs2, hx⟩
        have hp2 : pathStr root b = pathStr root (derivedRel s) := by
          rw [← hpath, hx]
        have hbd : b = derivedRel s := hinj b (hFsub b hb) (derivedRel s) hbfs hp2
        exact ((hFiff b).1 hb).2 s hs hskip hbd.symm
  · rw [List.Perm.nodup_iff (List.Perm.map (fun e => e.path) hperm), List.map_append]
    apply List.Nodup.append
    · apply nodup_path_filterMap
      apply List.Pairwise.imp_of_mem ?_ hndS
      intro a b ha hb hab x y hfa hfb
      rcases phase1emit_some root fs a x hfa with ⟨haskip, had, hafs, hxa⟩
      rcases phase1emit_some root fs b y hfb with ⟨hbskip, hbd2, hbfs2, hyb⟩
      rw [hxa, hyb]
      intro hpath
      simp only at hpath
      have hd : derivedRel a = derivedRel b := hinj _ had _ hbd2 hpath
      exact hab (hder a ha b hb haskip hbskip hd)
    · apply nodup_path_filterMap
      apply List.Pairwise.imp_of_mem ?_ hndF
      intro a b ha hb hab x y hfa hfb
      rcases phase2emit_some root fs a x hfa with ⟨_, hafs, hxa⟩
      rcases phase2emit_some root fs b y hfb with ⟨_, hbfs2, hyb⟩
      rw [hxa, hyb]
      intro hpath
      simp only at hpath
      exact hab (hinj a hafs b hbfs2 hpath)
    · intro x hx1 hx2
      rcases List.mem_map.1 hx1 with ⟨e1, he1, hpe1⟩
      rcases List.mem_map.1 hx2 with ⟨e2, he2, hpe2⟩
      rcases List.mem_filterMap.1 he1 with ⟨s0, hs0, hf1⟩
      rcases List.mem_filterMap.1 he2 with ⟨b0, hb0, hf2⟩
      rcases phase1emit_some root fs s0 e1 hf1 with ⟨hskip0, hd0, hsfs0, hx01⟩
      rcases phase2emit_some root fs b0 e2 hf2 with ⟨_, hbfs0, hx02⟩
      rw [hx01] at hpe1
      rw [hx02] at hpe2
      simp only at hpe1 hpe2
      have hpp : pathStr root (derivedRel s0) = pathStr root b0 := hpe1.trans hpe2.symm
      have hb0d : derivedRel s0 = b0 := hinj _ hd0 _ hbfs0 hpp
      exact ((hFiff b0).1 hb0).2 s0 hs0 hskip0 hb0d

/-- Witness for the corrected C7 at a concrete tree with one proper
source/binary pair under plugins. -/
theorem reconciler_unique_paths_witness :
    (collect_target_platform_plugins "/t"
        [["plugins", "a.source_1.jar"], ["plugins", "a_1.jar"]] "self.jar").count
      ⟨"lib", pathStr "/t" (derivedRel ["plugins", "a.source_1.jar"]),
        some (pathStr "/t" ["plugins", "a.source_1.jar"]), none⟩ = 1 ∧
    ((collect_target_platform_plugins "/t"
        [["plugins", "a.source_1.jar"], ["plugins", "a_1.jar"]] "self.jar").map
      (fun e => e.path)).Nodup := by
  have h := reconciler_unique_paths "/t"
    [["plugins", "a.source_1.jar"], ["plugins", "a_1.jar"]] "self.jar"
    (by decide) (by decide) (by decide)
  exact ⟨(h.1 ["plugins", "a.source_1.jar"] (by decide) (by decide) (by decide)).1, h.2⟩
